import Mathlib

/-!
Verification of the FeatherPack gear-list application (featherpack_v1.py).

A pandas dataframe holding one gear list is shallowly embedded as a `List Row`,
one `Row` per CSV data row; numeric cells are modelled as integers (the claims
under study are dtype-independent), raw CSV text as `String`.

Pandas sorting semantics used by the embedding:
* `df.sort_values([...])` with several keys uses `np.lexsort`, a stable sort;
  it is modelled by `List.insertionSort`, which is stable.
* `Series.sort_values(ascending=False)` (pandas `nargsort`) argsorts ascending
  and then reverses the whole indexer, so for the small arrays relevant here
  (numpy introsort runs a stable insertion sort below 16 elements) the result
  is the reverse of a stable ascending sort.
* `groupby('category')` sorts its keys lexicographically (`sort=True` default)
  and drops NaN keys.
-/

open List

/-- One data row of a gear-list CSV (fixed schema of featherpack_v1.py line 23):
`weight` is the '⚖️' column, `qty` the '#' column; `category = none` models a
NaN (missing) category cell. -/
structure Row where
  name : String
  desc : String
  category : Option String
  weight : Int
  qty : Int
  wearable : Bool
  consumable : Bool
  luxury : Bool
deriving DecidableEq, Repr

/-- Line 31: `df['item_weight'] = df['#'] * df[weight_icon]`. -/
def itemWeight (r : Row) : Int := r.qty * r.weight

/-- Python string comparison (code-point lexicographic) on character lists. -/
def charsLE : List Char → List Char → Bool
  | [], _ => true
  | _ :: _, [] => false
  | a :: as, b :: bs =>
    if a.val < b.val then true else if b.val < a.val then false else charsLE as bs

/-- Python string `<=`, as used by pandas to sort string group keys. -/
def pyStrLE (a b : String) : Bool := charsLE a.data b.data

/-- Worker for `uniqueFirst`: keep the first occurrence of each value,
`seen` accumulating the values already emitted. -/
def uniqueFirstAux [DecidableEq α] : List α → List α → List α
  | _, [] => []
  | seen, b :: bs =>
    if b ∈ seen then uniqueFirstAux seen bs else b :: uniqueFirstAux (b :: seen) bs

/-- Pandas `Series.unique`: distinct values in order of first appearance
(`df['category'].dropna().unique()`, line 258). -/
def uniqueFirst [DecidableEq α] (l : List α) : List α := uniqueFirstAux [] l

/-- Sum of `item_weight` over the rows of one category:
`df.groupby('category')['item_weight'].sum()` (line 32). -/
def catTotal (l : List Row) (c : String) : Int :=
  ((l.filter (fun r => r.category == some c)).map itemWeight).sum

/-- The groupby keys of line 32: distinct non-null categories, sorted
lexicographically (pandas `groupby` sorts its keys by default). -/
def lexCats (l : List Row) : List String :=
  insertionSort (fun a b => pyStrLE a b = true) (uniqueFirst (l.filterMap Row.category))

/-- Model of `Series.sort_values(ascending=False)`: pandas argsorts ascending (stably on
the array sizes at hand) and reverses the resulting indexer, so the result is
the reverse of a stable ascending sort. -/
def sortValsDesc (tot : String → Int) (cs : List String) : List String :=
  (insertionSort (fun a b => tot a ≤ tot b) cs).reverse

/-- The index `category_totals.index` after line 32: the categories ordered by descending
total weight (ties land in reverse-lexicographic order); line 33 turns this
into the ordering of `pd.Categorical`. -/
def categoryOrder (l : List Row) : List String := sortValsDesc (catTotal l) (lexCats l)

/-- Rank of a category cell in the ordered `pd.Categorical` (line 33); a
missing category sorts after every real one (`na_position='last'`). -/
def catRank (order : List String) : Option String → Nat
  | some c => order.indexOf c
  | none => order.length

/-- The key order of `df.sort_values(['category', 'item_weight'],
ascending=[True, False])` (line 34): category rank ascending, then item weight
descending. -/
def rowLE (order : List String) (r s : Row) : Prop :=
  catRank order r.category < catRank order s.category ∨
    (catRank order r.category = catRank order s.category ∧ itemWeight s ≤ itemWeight r)

instance (order : List String) : DecidableRel (rowLE order) := fun r s =>
  decidable_of_iff
    (catRank order r.category < catRank order s.category ∨
      (catRank order r.category = catRank order s.category ∧ itemWeight s ≤ itemWeight r))
    Iff.rfl

/-- Line 34: multi-key `sort_values` runs `np.lexsort`, a stable sort, modelled
by the stable `insertionSort`. -/
def sortRows (order : List String) (l : List Row) : List Row := insertionSort (rowLE order) l

/-- The function `sort_by_weight` (lines 27-36), restricted to the row content it returns. -/
def sortByWeightRows (l : List Row) : List Row := sortRows (categoryOrder l) l

/-- The full sort key of one row under a fixed category order. -/
def rowKey (order : List String) (r : Row) : Nat × Int := (catRank order r.category, itemWeight r)

/-- Spec-side definition (used by claim C1 only), following the spec's words:
categories ordered by `category_total_weight` descending with ties broken by
encounter order, i.e. a stable descending sort of the encounter-ordered
distinct categories. -/
def categoryOrderClaimed (l : List Row) : List String :=
  insertionSort (fun a b => catTotal l b ≤ catTotal l a) (uniqueFirst (l.filterMap Row.category))

/-- Spec-side sort (claim C1): rows sorted as the spec describes, with the
claimed encounter-order tie-breaking between equal-weight categories. -/
def sortByWeightClaimed (l : List Row) : List Row := sortRows (categoryOrderClaimed l) l

/-- A pandas dataframe object as seen by a caller of `sort_by_weight`: its row
content plus the schema facts the function can change in place. -/
structure PandasDF where
  rows : List Row
  hasItemWeightCol : Bool
  categoryCategorical : Bool
deriving DecidableEq, Repr

/-- The call `sort_by_weight(df)` together with its effect on the argument (lines
27-36): line 31 adds the `item_weight` column to the caller's frame in place,
line 33 replaces the caller's `category` column by an ordered
`pd.Categorical`; the later `sort_values`/`drop` rebind the local name only.
First component: the caller's frame after the call; second: the returned
frame (sorted rows, helper column dropped, category still categorical). -/
def sort_by_weight (df : PandasDF) : PandasDF × PandasDF :=
  ({ df with hasItemWeightCol := true, categoryCategorical := true },
   { rows := sortByWeightRows df.rows, hasItemWeightCol := false, categoryCategorical := true })

/-- Line 98: `df['total_weight'].sum()` (the `total_weight` column is
`# * weight`, line 262). -/
def total_weight (l : List Row) : Int := (l.map itemWeight).sum

/-- Line 99: `df[df[wearable_icon] == True]['total_weight'].sum()`. -/
def wearable_weight (l : List Row) : Int :=
  ((l.filter (fun r => r.wearable)).map itemWeight).sum

/-- Line 100: `df[df[consumable_icon] == True]['total_weight'].sum()`. -/
def consumable_weight (l : List Row) : Int :=
  ((l.filter (fun r => r.consumable)).map itemWeight).sum

/-- Line 101: `df[df[luxury_icon] == True]['total_weight'].sum()`. -/
def luxury_weight (l : List Row) : Int :=
  ((l.filter (fun r => r.luxury)).map itemWeight).sum

/-- Line 102: `base_weight = total_weight - wearable_weight - consumable_weight`. -/
def base_weight (l : List Row) : Int := total_weight l - wearable_weight l - consumable_weight l

/-- Confirmed category delete: `df_updated = df[df['category'] != category]`
(line 197); a NaN category compares as not-equal to any name and is kept. -/
def delete_category (cat : String) (df : List Row) : List Row :=
  df.filter (fun r => !(r.category == some cat))

/-- Overwrite one file of a keyed store (`to_csv`: a full-file overwrite). -/
def setFile (k : String) (v : β) (fs : String → Option β) : String → Option β :=
  fun q => if q = k then some v else fs q

/-- Python `str.strip()`: drop leading and trailing whitespace. -/
def pyStrip (s : String) : String :=
  ⟨((s.data.dropWhile Char.isWhitespace).reverse.dropWhile Char.isWhitespace).reverse⟩

/-- The fixed CSV schema of line 23: name, desc, category, weight '⚖️',
quantity '#', wearable '🥾', consumable '🍞', luxury '🎩'. -/
def gearColumns : List String := ["name", "desc", "category", "⚖️", "#", "🥾", "🍞", "🎩"]

/-- A stored CSV file: header row plus raw text cells. -/
structure CSVFile where
  header : List String
  rows : List (List String)
deriving DecidableEq, Repr

/-- The content written by `create_empty_df().to_csv(...)`: the fixed header
row and no data rows (lines 22-24, 51-52). -/
def create_empty_df : CSVFile := ⟨gearColumns, []⟩

/-- Python `name.endswith('.csv')`. -/
def endsWithCsv (s : String) : Bool := List.isSuffixOf ".csv".data s.data

/-- The callback `on_create_new_config` (lines 46-54): strip the typed name; do nothing if
it is empty; append `.csv` when absent; write an empty gear list, silently
overwriting any existing file of that name (no existence check). -/
def on_create_new_config (input : String) (fs : String → Option CSVFile) :
    String → Option CSVFile :=
  let name := pyStrip input
  if name = "" then fs
  else setFile (if endsWithCsv name then name else name ++ ".csv") create_empty_df fs

/-- The placeholder row appended by Add Category (lines 144-153). -/
def newCategoryRow (cat : String) : Row :=
  { name := "", desc := "", category := some cat, weight := 0, qty := 1,
    wearable := false, consumable := false, luxury := false }

/-- The callback `on_add_category` (lines 141-156).  The session's `authenticated` flag is a
parameter to record that the callback never consults it: a non-empty category
name is persisted immediately, authenticated or not. -/
def on_add_category (authenticated : Bool) (newCat : String) (df : List Row)
    (cfg : String) (fs : String → Option (List Row)) : String → Option (List Row) :=
  if pyStrip newCat = "" then fs
  else setFile cfg (df ++ [newCategoryRow (pyStrip newCat)]) fs

/-- The confirmed category delete (lines 196-200); again the callback performs
no authentication check before writing. -/
def on_delete_category (authenticated : Bool) (cat : String) (df : List Row)
    (cfg : String) (fs : String → Option (List Row)) : String → Option (List Row) :=
  setFile cfg (delete_category cat df) fs

/-- Notes persistence (lines 295-297): written only when the text changed and
the session is authenticated. -/
def save_notes (authenticated : Bool) (notes existing : String) (notesFile : String)
    (txt : String → Option String) : String → Option String :=
  if notes ≠ existing ∧ authenticated = true then setFile notesFile notes txt else txt

/-- The per-category editor contents of an untouched session (lines 258,
277-280): `df[df['category'] == category]` for each non-null category of the
displayed frame, with the category column re-added (line 225). -/
def editorFragments (df : List Row) : List (List Row) :=
  (uniqueFirst (df.filterMap Row.category)).map
    (fun c => df.filter (fun r => r.category == some c))

/-- The save handler (lines 300-307) for an untouched editing session: when at
least one editor fragment exists (`if edited_dfs:`) and Save was clicked by an
authenticated session, the fragments are concatenated, re-sorted and written;
otherwise nothing is written. -/
def on_save (authenticated saveClicked : Bool) (df : List Row) (cfg : String)
    (fs : String → Option (List Row)) : String → Option (List Row) :=
  let edited := editorFragments df
  if edited ≠ [] then
    if saveClicked then
      if authenticated then setFile cfg (sortByWeightRows edited.flatten) fs else fs
    else fs
  else fs

/-- Content-level `save(load(X))` for claim C4: load and sort (lines 256-257),
render the editors untouched, concatenate and re-sort for the write
(lines 300-305). -/
def savePipeline (l : List Row) : List Row :=
  sortByWeightRows (editorFragments (sortByWeightRows l)).flatten

/-- Integer-literal detection of `read_csv` dtype inference: an optional minus
sign followed by digits gives int64.  (Exotic spellings — plus signs,
exponents, inf/nan — are outside the model's token class; the claims'
inputs avoid them.) -/
def tokenIsInt (s : String) : Bool :=
  match s.data with
  | [] => false
  | c :: cs => if c = '-' then !cs.isEmpty && cs.all Char.isDigit else (c :: cs).all Char.isDigit

/-- Numeric-literal detection of `read_csv` dtype inference: an optional minus
sign followed by digits with at most one decimal point (and at least one
digit).  A column of numeric tokens that is not all-integer becomes float64;
a column containing any non-numeric token stays an object (string) column. -/
def tokenIsNumeric (s : String) : Bool :=
  match s.data with
  | [] => false
  | c :: cs =>
    let ds := if c = '-' then cs else c :: cs
    ds.all (fun d => d.isDigit || d == '.') && decide (List.count '.' ds ≤ 1) &&
      ds.any Char.isDigit

/-- Value of a digit string. -/
def digitsToNat (ds : List Char) : Nat := ds.foldl (fun n c => 10 * n + (c.toNat - 48)) 0

/-- Value of an integer token accepted by `tokenIsInt`. -/
def tokenToInt (s : String) : Int :=
  match s.data with
  | '-' :: cs => -(digitsToNat cs : Int)
  | cs => (digitsToNat cs : Int)

/-- An exact decimal `mant * 10 ^ (- exp)`, the model of a float64 cell.  The
claims under study depend only on which dtype combinations raise, never on
float rounding, so exact decimals stand in for binary floats. -/
structure Dec where
  mant : Int
  exp : Nat
deriving DecidableEq, Repr

/-- The integer and fractional digit runs of a decimal literal (sign already
stripped). -/
def intFracParts (ds : List Char) : List Char × List Char :=
  (ds.takeWhile (fun c => !(c == '.')), (ds.dropWhile (fun c => !(c == '.'))).drop 1)

/-- Value of a numeric token accepted by `tokenIsNumeric`. -/
def tokenToDec (s : String) : Dec :=
  match s.data with
  | '-' :: cs =>
    ⟨-(digitsToNat ((intFracParts cs).1 ++ (intFracParts cs).2) : Int),
      (intFracParts cs).2.length⟩
  | cs =>
    ⟨(digitsToNat ((intFracParts cs).1 ++ (intFracParts cs).2) : Int),
      (intFracParts cs).2.length⟩

/-- Exact product of two decimals. -/
def decMul (a b : Dec) : Dec := ⟨a.mant * b.mant, a.exp + b.exp⟩

/-- A decimal with the value of an integer. -/
def decOfInt (x : Int) : Dec := ⟨x, 0⟩

/-- One dataframe column after `read_csv` dtype inference: all-integer tokens
give an int64 column, all-numeric (but not all-integer) tokens a float64
column, anything else an object (string) column. -/
inductive ColData where
  | nums (ns : List Int)
  | floats (fs : List Dec)
  | strs (ss : List String)
deriving DecidableEq, Repr

/-- The `read_csv` dtype inference for one column. -/
def inferCol (tokens : List String) : ColData :=
  if tokens.all tokenIsInt then .nums (tokens.map tokenToInt)
  else if tokens.all tokenIsNumeric then .floats (tokens.map tokenToDec)
  else .strs tokens

/-- Column access `df[name]` on a parsed CSV: the raw cells of the named column, `none` when
the column is absent (pandas raises KeyError).  Rows are assumed rectangular. -/
def getCol (f : CSVFile) (colName : String) : Option (List String) :=
  match f.header.findIdx? (fun h => h == colName) with
  | none => none
  | some j => some (f.rows.map (fun row => row.getD j ""))

/-- Python string repetition `s * n` (non-positive `n` gives the empty string). -/
def pyRepeat (s : String) (n : Int) : String := String.join (List.replicate n.toNat s)

/-- Failure modes of `pd.read_csv(...)` followed by `sort_by_weight` in `main`
(lines 256-257). -/
inductive LoadErr where
  | fileNotFound
  | keyError
  | typeError
deriving DecidableEq, Repr

/-- Line 31: `df['#'] * df[weight_icon]`: numeric columns (int64 or float64)
multiply elementwise without error; a string column against an int column is
Python string repetition (`'x' * 3 = 'xxx'`, no error!); a string column
against a float column raises TypeError (`'x' * 1.5`), as do two string
columns. -/
def mulCols : ColData → ColData → Except LoadErr ColData
  | .nums a, .nums b => .ok (.nums (a.zipWith (fun x y => x * y) b))
  | .nums a, .floats b => .ok (.floats (List.zipWith (fun x d => decMul (decOfInt x) d) a b))
  | .floats a, .nums b => .ok (.floats (List.zipWith (fun d x => decMul d (decOfInt x)) a b))
  | .floats a, .floats b => .ok (.floats (a.zipWith decMul b))
  | .strs a, .nums b => .ok (.strs (List.zipWith pyRepeat a b))
  | .nums a, .strs b => .ok (.strs (List.zipWith pyRepeat b a))
  | .strs _, .floats _ => .error .typeError
  | .floats _, .strs _ => .error .typeError
  | .strs _, .strs _ => .error .typeError

/-- The columns of the frame at the end of loading that the claims speak about. -/
structure LoadedFrame where
  qtyCol : ColData
  weightCol : ColData
  categoryCol : List String
  itemWeightCol : ColData
deriving DecidableEq, Repr

/-- The load step `pd.read_csv(selected_config)` followed by `sort_by_weight` (lines
256-257), carried to every point at which an exception can occur: a missing
file (FileNotFoundError), a missing '#', '⚖️' or 'category' column (KeyError
at lines 31-32), an undefined elementwise product (TypeError at line 31).  The
remaining steps of lines 32-35 (groupby-sum, sort_values, Categorical, drop)
only aggregate and reorder uniform-dtype columns and raise nothing. -/
def load_sorted (file : Option CSVFile) : Except LoadErr LoadedFrame :=
  match file with
  | none => .error .fileNotFound
  | some f =>
    match getCol f "#" with
    | none => .error .keyError
    | some qtyToks =>
      match getCol f "⚖️" with
      | none => .error .keyError
      | some wToks =>
        match mulCols (inferCol qtyToks) (inferCol wToks) with
        | .error e => .error e
        | .ok iw =>
          match getCol f "category" with
          | none => .error .keyError
          | some cats => .ok ⟨inferCol qtyToks, inferCol wToks, cats, iw⟩

/-! ### Order facts for the embedded comparison relations -/

theorem uint32_le_antisymm {a b : UInt32} (h1 : a ≤ b) (h2 : b ≤ a) : a = b :=
  UInt32.eq_of_toBitVec_eq (BitVec.le_antisymm h1 h2)

theorem charsLE_total : ∀ a b : List Char, charsLE a b = true ∨ charsLE b a = true
  | [], _ => Or.inl rfl
  | _ :: _, [] => Or.inr rfl
  | a :: as, b :: bs => by
    by_cases h1 : a.val < b.val
    · exact Or.inl (by simp [charsLE, h1])
    · by_cases h2 : b.val < a.val
      · exact Or.inr (by simp [charsLE, h2])
      · rcases charsLE_total as bs with h | h
        · exact Or.inl (by simp [charsLE, h1, h2, h])
        · exact Or.inr (by simp [charsLE, h1, h2, h])

theorem charsLE_trans : ∀ a b c : List Char,
    charsLE a b = true → charsLE b c = true → charsLE a c = true
  | [], _, _, _, _ => rfl
  | _ :: _, [], _, h, _ => by simp [charsLE] at h
  | _ :: _, _ :: _, [], _, h => by simp [charsLE] at h
  | a :: as, b :: bs, c :: cs, h1, h2 => by
    by_cases hab : a.val < b.val
    · by_cases hbc : b.val < c.val
      · simp [charsLE, UInt32.lt_trans hab hbc]
      · by_cases hcb : c.val < b.val
        · simp [charsLE, hbc, hcb] at h2
        · have hbceq : b = c :=
            Char.ext (uint32_le_antisymm (UInt32.not_lt.mp hcb) (UInt32.not_lt.mp hbc))
          subst hbceq
          simp [charsLE, hab]
    · by_cases hba : b.val < a.val
      · simp [charsLE, hab, hba] at h1
      · have habeq : a = b :=
          Char.ext (uint32_le_antisymm (UInt32.not_lt.mp hba) (UInt32.not_lt.mp hab))
        subst habeq
        by_cases hac : a.val < c.val
        · simp [charsLE, hac]
        · by_cases hca : c.val < a.val
          · simp [charsLE, hac, hca] at h2
          · have t1 : charsLE as bs = true := by simpa [charsLE, hab] using h1
            have t2 : charsLE bs cs = true := by simpa [charsLE, hac, hca] using h2
            simp [charsLE, hac, hca, charsLE_trans as bs cs t1 t2]

theorem charsLE_antisymm : ∀ a b : List Char,
    charsLE a b = true → charsLE b a = true → a = b
  | [], [], _, _ => rfl
  | [], _ :: _, _, h => by simp [charsLE] at h
  | _ :: _, [], h, _ => by simp [charsLE] at h
  | a :: as, b :: bs, h1, h2 => by
    by_cases hab : a.val < b.val
    · simp [charsLE, hab, UInt32.lt_asymm hab] at h2
    · by_cases hba : b.val < a.val
      · simp [charsLE, hab, hba] at h1
      · have hv : a = b :=
          Char.ext (uint32_le_antisymm (UInt32.not_lt.mp hba) (UInt32.not_lt.mp hab))
        have t1 : charsLE as bs = true := by simpa [charsLE, hab, hba] using h1
        have t2 : charsLE bs as = true := by simpa [charsLE, hab, hba] using h2
        rw [hv, charsLE_antisymm as bs t1 t2]

theorem pyStrLE_total (a b : String) : pyStrLE a b = true ∨ pyStrLE b a = true :=
  charsLE_total a.data b.data

theorem pyStrLE_trans (a b c : String) :
    pyStrLE a b = true → pyStrLE b c = true → pyStrLE a c = true :=
  charsLE_trans a.data b.data c.data

theorem pyStrLE_antisymm (a b : String) :
    pyStrLE a b = true → pyStrLE b a = true → a = b := by
  intro h1 h2
  have h := charsLE_antisymm a.data b.data h1 h2
  cases a
  cases b
  exact congrArg String.mk h

instance : IsTotal String (fun a b => pyStrLE a b = true) := ⟨pyStrLE_total⟩

instance : IsTrans String (fun a b => pyStrLE a b = true) := ⟨pyStrLE_trans⟩

instance : IsAntisymm String (fun a b => pyStrLE a b = true) := ⟨pyStrLE_antisymm⟩

instance (tot : String → Int) : IsTotal String (fun a b => tot a ≤ tot b) :=
  ⟨fun a b => Int.le_total (tot a) (tot b)⟩

instance (tot : String → Int) : IsTrans String (fun a b => tot a ≤ tot b) :=
  ⟨fun _ _ _ h1 h2 => le_trans h1 h2⟩

instance (order : List String) : IsTotal Row (rowLE order) := by
  constructor
  intro a b
  unfold rowLE
  omega

instance (order : List String) : IsTrans Row (rowLE order) := by
  constructor
  intro a b c
  unfold rowLE
  omega

/-! ### Facts about `uniqueFirst` -/

theorem mem_uniqueFirstAux [DecidableEq α] (x : α) :
    ∀ (l seen : List α), x ∈ uniqueFirstAux seen l ↔ x ∈ l ∧ x ∉ seen
  | [], seen => by simp [uniqueFirstAux]
  | b :: bs, seen => by
    by_cases hb : b ∈ seen
    · simp only [uniqueFirstAux, if_pos hb, mem_uniqueFirstAux x bs seen, mem_cons]
      constructor
      · rintro ⟨h1, h2⟩
        exact ⟨Or.inr h1, h2⟩
      · rintro ⟨h1 | h1, h2⟩
        · exact absurd hb (h1 ▸ h2)
        · exact ⟨h1, h2⟩
    · simp only [uniqueFirstAux, if_neg hb, mem_cons, mem_uniqueFirstAux x bs (b :: seen)]
      by_cases hxb : x = b
      · subst hxb
        simp [hb]
      · simp [hxb]

theorem mem_uniqueFirst [DecidableEq α] {x : α} {l : List α} :
    x ∈ uniqueFirst l ↔ x ∈ l := by
  simp [uniqueFirst, mem_uniqueFirstAux]

theorem nodup_uniqueFirstAux [DecidableEq α] :
    ∀ (l seen : List α), (uniqueFirstAux seen l).Nodup
  | [], seen => by simp [uniqueFirstAux]
  | b :: bs, seen => by
    by_cases hb : b ∈ seen
    · simpa [uniqueFirstAux, if_pos hb] using nodup_uniqueFirstAux bs seen
    · simp only [uniqueFirstAux, if_neg hb, nodup_cons]
      refine ⟨fun hmem => ?_, nodup_uniqueFirstAux bs (b :: seen)⟩
      exact ((mem_uniqueFirstAux b bs (b :: seen)).mp hmem).2 (mem_cons_self b seen)

theorem nodup_uniqueFirst [DecidableEq α] (l : List α) : (uniqueFirst l).Nodup :=
  nodup_uniqueFirstAux l []

theorem uniqueFirstAux_congr [DecidableEq α] :
    ∀ (l s₁ s₂ : List α), (∀ x, x ∈ s₁ ↔ x ∈ s₂) →
      uniqueFirstAux s₁ l = uniqueFirstAux s₂ l
  | [], _, _, _ => rfl
  | b :: bs, s₁, s₂, h => by
    by_cases hb : b ∈ s₁
    · simp only [uniqueFirstAux, if_pos hb, if_pos ((h b).mp hb)]
      exact uniqueFirstAux_congr bs s₁ s₂ h
    · simp only [uniqueFirstAux, if_neg hb, if_neg (fun hc => hb ((h b).mpr hc))]
      have h2 : ∀ x, x ∈ b :: s₁ ↔ x ∈ b :: s₂ := by
        intro x
        simp [h x]
      rw [uniqueFirstAux_congr bs (b :: s₁) (b :: s₂) h2]

theorem uniqueFirstAux_cons_seen [DecidableEq α] :
    ∀ (l seen : List α) (b : α),
      uniqueFirstAux (b :: seen) l = uniqueFirstAux seen (l.filter (fun x => !(x == b)))
  | [], _, _ => rfl
  | x :: xs, seen, b => by
    by_cases hxb : x = b
    · subst hxb
      have hfil : ((x :: xs).filter (fun y => !(y == x))) = xs.filter (fun y => !(y == x)) := by
        simp [filter_cons]
      simp only [uniqueFirstAux, if_pos (mem_cons_self x seen), hfil]
      exact uniqueFirstAux_cons_seen xs seen x
    · have hfil : ((x :: xs).filter (fun y => !(y == b))) =
          x :: xs.filter (fun y => !(y == b)) := by
        simp [filter_cons, hxb]
      by_cases hxs : x ∈ seen
      · simp only [uniqueFirstAux, if_pos (mem_cons_of_mem b hxs), hfil, if_pos hxs]
        exact uniqueFirstAux_cons_seen xs seen b
      · have hnot : x ∉ b :: seen := by
          intro hc
          rcases mem_cons.mp hc with h | h
          · exact hxb h
          · exact hxs h
        simp only [uniqueFirstAux, if_neg hnot, hfil, if_neg hxs]
        refine congrArg (x :: ·) ?_
        rw [uniqueFirstAux_congr xs (x :: b :: seen) (b :: x :: seen)
          (by intro y; simp only [mem_cons]; tauto)]
        exact uniqueFirstAux_cons_seen xs (x :: seen) b

theorem uniqueFirst_cons [DecidableEq α] (b : α) (bs : List α) :
    uniqueFirst (b :: bs) = b :: uniqueFirst (bs.filter (fun x => !(x == b))) := by
  simp only [uniqueFirst, uniqueFirstAux, if_neg (not_mem_nil b)]
  exact congrArg (b :: ·) (uniqueFirstAux_cons_seen bs [] b)

theorem uniqueFirstAux_map_inj {α β} [DecidableEq α] [DecidableEq β] (f : α → β)
    (hinjf : ∀ x y, f x = f y → x = y) :
    ∀ (l seen : List α), uniqueFirstAux (seen.map f) (l.map f) = (uniqueFirstAux seen l).map f
  | [], _ => rfl
  | b :: bs, seen => by
    by_cases hb : b ∈ seen
    · have hfb : f b ∈ seen.map f := mem_map_of_mem f hb
      simp only [map_cons, uniqueFirstAux, if_pos hfb, if_pos hb]
      exact uniqueFirstAux_map_inj f hinjf bs seen
    · have hfb : f b ∉ seen.map f := by
        intro hc
        rcases mem_map.mp hc with ⟨x, hx, he⟩
        exact hb (hinjf x b he ▸ hx)
      simp only [map_cons, uniqueFirstAux, if_neg hfb, if_neg hb, map_cons]
      exact congrArg (f b :: ·) (uniqueFirstAux_map_inj f hinjf bs (b :: seen))

theorem uniqueFirst_map_inj {α β} [DecidableEq α] [DecidableEq β] (f : α → β)
    (hinjf : ∀ x y, f x = f y → x = y) (l : List α) :
    uniqueFirst (l.map f) = (uniqueFirst l).map f :=
  uniqueFirstAux_map_inj f hinjf l []

/-! ### Reassembling a grouped list from its per-key filters -/

theorem filter_key_append_of_min {α β} [DecidableEq β] (f : α → β) (rk : β → Nat) (c0 : β) :
    ∀ l : List α, (∀ b ∈ l, rk c0 ≤ rk (f b)) →
      l.Pairwise (fun a b => rk (f a) ≤ rk (f b)) →
      (∀ a ∈ l, rk (f a) = rk c0 → f a = c0) →
      l.filter (fun a => f a == c0) ++ l.filter (fun a => !(f a == c0)) = l
  | [], _, _, _ => rfl
  | b :: bs, hmin, hpw, hinj => by
    by_cases hb : f b = c0
    · have h1 : (b :: bs).filter (fun a => f a == c0) =
          b :: bs.filter (fun a => f a == c0) := by
        simp [filter_cons, hb]
      have h2 : (b :: bs).filter (fun a => !(f a == c0)) =
          bs.filter (fun a => !(f a == c0)) := by
        simp [filter_cons, hb]
      rw [h1, h2, cons_append]
      refine congrArg (b :: ·) ?_
      exact filter_key_append_of_min f rk c0 bs
        (fun x hx => hmin x (mem_cons_of_mem b hx))
        (pairwise_cons.mp hpw).2
        (fun x hx => hinj x (mem_cons_of_mem b hx))
    · have hle : rk c0 ≤ rk (f b) := hmin b (mem_cons_self b bs)
      have hne : rk (f b) ≠ rk c0 := fun he => hb (hinj b (mem_cons_self b bs) he)
      have hnone : ∀ s ∈ bs, ¬(f s = c0) := by
        intro s hs he
        have h3 : rk (f b) ≤ rk (f s) := (pairwise_cons.mp hpw).1 s hs
        rw [he] at h3
        omega
      have h1 : (b :: bs).filter (fun a => f a == c0) = [] := by
        rw [filter_eq_nil_iff]
        intro x hx
        rcases mem_cons.mp hx with h | h
        · subst h
          simp [hb]
        · simp [hnone x h]
      have h2 : (b :: bs).filter (fun a => !(f a == c0)) = b :: bs := by
        rw [filter_eq_self]
        intro x hx
        rcases mem_cons.mp hx with h | h
        · subst h
          simp [hb]
        · simp [hnone x h]
      rw [h1, h2, nil_append]

theorem gather_sorted {α β} [DecidableEq β] (f : α → β) (rk : β → Nat) :
    ∀ l : List α,
      l.Pairwise (fun a b => rk (f a) ≤ rk (f b)) →
      (∀ a ∈ l, ∀ b ∈ l, rk (f a) = rk (f b) → f a = f b) →
      ((uniqueFirst (l.map f)).map (fun c => l.filter (fun a => f a == c))).flatten = l
  | [], _, _ => rfl
  | a :: l₂, hpw, hinj => by
    have hfm : (l₂.map f).filter (fun x => !(x == f a)) =
        (l₂.filter (fun b => !(f b == f a))).map f := by
      rw [filter_map]
      rfl
    have hcats : uniqueFirst ((a :: l₂).map f) =
        f a :: uniqueFirst ((l₂.filter (fun b => !(f b == f a))).map f) := by
      rw [map_cons, uniqueFirst_cons, hfm]
    rw [hcats, map_cons, flatten_cons]
    have hhead : (a :: l₂).filter (fun x => f x == f a) =
        a :: l₂.filter (fun x => f x == f a) := by
      simp [filter_cons]
    have hrest : ∀ c ∈ uniqueFirst ((l₂.filter (fun b => !(f b == f a))).map f),
        (a :: l₂).filter (fun x => f x == c) =
          (l₂.filter (fun b => !(f b == f a))).filter (fun x => f x == c) := by
      intro c hc
      have hcne : c ≠ f a := by
        rcases mem_map.mp (mem_uniqueFirst.mp hc) with ⟨x, hx, he⟩
        have := of_mem_filter hx
        subst he
        simpa using this
      have hstep1 : (a :: l₂).filter (fun x => f x == c) = l₂.filter (fun x => f x == c) := by
        have : ¬(f a = c) := fun he => hcne he.symm
        simp [filter_cons, this]
      rw [hstep1, filter_filter]
      refine (filter_congr ?_).symm
      intro x hx
      by_cases hxc : f x = c
      · simp [hxc, hcne]
      · simp [hxc]
    rw [map_congr_left hrest, hhead]
    rw [gather_sorted f rk (l₂.filter (fun b => !(f b == f a)))
      ((pairwise_cons.mp hpw).2.sublist (filter_sublist l₂))
      (fun x hx y hy => hinj x (mem_cons_of_mem a (mem_of_mem_filter hx))
        y (mem_cons_of_mem a (mem_of_mem_filter hy)))]
    rw [cons_append]
    refine congrArg (a :: ·) ?_
    exact filter_key_append_of_min f rk (f a) l₂
      (fun x hx => (pairwise_cons.mp hpw).1 x hx)
      (pairwise_cons.mp hpw).2
      (fun x hx he => hinj x (mem_cons_of_mem a hx) a (mem_cons_self a l₂) he)
termination_by l _ _ => l.length
decreasing_by
  simp only [length_cons]
  exact Nat.lt_succ_of_le (length_filter_le _ l₂)

theorem gather_perm {α β} [DecidableEq β] (f : α → β) :
    ∀ l : List α,
      ((uniqueFirst (l.map f)).map (fun c => l.filter (fun a => f a == c))).flatten ~ l
  | [] => Perm.refl _
  | a :: l₂ => by
    have hfm : (l₂.map f).filter (fun x => !(x == f a)) =
        (l₂.filter (fun b => !(f b == f a))).map f := by
      rw [filter_map]
      rfl
    have hcats : uniqueFirst ((a :: l₂).map f) =
        f a :: uniqueFirst ((l₂.filter (fun b => !(f b == f a))).map f) := by
      rw [map_cons, uniqueFirst_cons, hfm]
    rw [hcats, map_cons, flatten_cons]
    have hhead : (a :: l₂).filter (fun x => f x == f a) =
        a :: l₂.filter (fun x => f x == f a) := by
      simp [filter_cons]
    have hrest : ∀ c ∈ uniqueFirst ((l₂.filter (fun b => !(f b == f a))).map f),
        (a :: l₂).filter (fun x => f x == c) =
          (l₂.filter (fun b => !(f b == f a))).filter (fun x => f x == c) := by
      intro c hc
      have hcne : c ≠ f a := by
        rcases mem_map.mp (mem_uniqueFirst.mp hc) with ⟨x, hx, he⟩
        have := of_mem_filter hx
        subst he
        simpa using this
      have hstep1 : (a :: l₂).filter (fun x => f x == c) = l₂.filter (fun x => f x == c) := by
        have : ¬(f a = c) := fun he => hcne he.symm
        simp [filter_cons, this]
      rw [hstep1, filter_filter]
      refine (filter_congr ?_).symm
      intro x hx
      by_cases hxc : f x = c
      · simp [hxc, hcne]
      · simp [hxc]
    rw [map_congr_left hrest, hhead, cons_append]
    refine Perm.cons a ?_
    have hperm := (gather_perm f (l₂.filter (fun b => !(f b == f a))))
    refine ((Perm.append_left _ hperm).trans ?_)
    exact filter_append_perm (fun x => f x == f a) l₂
termination_by l => l.length
decreasing_by
  simp only [length_cons]
  exact Nat.lt_succ_of_le (length_filter_le _ l₂)

/-! ### Sortedness, stability and idempotence of the embedded sort -/

theorem rowLE_of_key_eq {order : List String} {r s : Row}
    (h : rowKey order r = rowKey order s) : rowLE order r s := by
  rw [rowKey, rowKey, Prod.mk.injEq] at h
  exact Or.inr ⟨h.1, le_of_eq h.2.symm⟩

theorem rowLE_rank_le {order : List String} {r s : Row} (h : rowLE order r s) :
    catRank order r.category ≤ catRank order s.category := by
  unfold rowLE at h
  omega

theorem sortRows_perm (order : List String) (l : List Row) : sortRows order l ~ l :=
  perm_insertionSort _ l

theorem sortRows_pairwise (order : List String) (l : List Row) :
    (sortRows order l).Pairwise (rowLE order) :=
  sorted_insertionSort (rowLE order) l

theorem sortRows_of_pairwise {order : List String} {l : List Row}
    (h : l.Pairwise (rowLE order)) : sortRows order l = l :=
  Sorted.insertionSort_eq h

theorem sortRows_filter_key (order : List String) (l : List Row) (k : Nat × Int) :
    (sortRows order l).filter (fun r => rowKey order r == k) =
      l.filter (fun r => rowKey order r == k) := by
  have hpw : (l.filter (fun r => rowKey order r == k)).Pairwise (rowLE order) := by
    refine pairwise_of_forall_mem_list ?_
    intro x hx y hy
    have hxk : rowKey order x = k := by simpa using of_mem_filter hx
    have hyk : rowKey order y = k := by simpa using of_mem_filter hy
    exact rowLE_of_key_eq (hyk ▸ hxk)
  have hsub1 : l.filter (fun r => rowKey order r == k) <+ sortRows order l :=
    sublist_insertionSort hpw (filter_sublist l)
  have heq : (l.filter (fun r => rowKey order r == k)).filter
      (fun r => rowKey order r == k) = l.filter (fun r => rowKey order r == k) := by
    rw [filter_filter]
    refine filter_congr ?_
    intro x _
    cases h : (rowKey order x == k) <;> simp [h]
  have hsub2 : l.filter (fun r => rowKey order r == k) <+
      (sortRows order l).filter (fun r => rowKey order r == k) := by
    have := hsub1.filter (fun r => rowKey order r == k)
    rwa [heq] at this
  have hlen : (l.filter (fun r => rowKey order r == k)).length =
      ((sortRows order l).filter (fun r => rowKey order r == k)).length :=
    (((sortRows_perm order l).filter _).length_eq).symm
  exact (hsub2.eq_of_length hlen).symm

theorem lexCats_pairwise (l : List Row) :
    (lexCats l).Pairwise (fun a b => pyStrLE a b = true) :=
  sorted_insertionSort _ _

theorem lexCats_nodup (l : List Row) : (lexCats l).Nodup :=
  ((perm_insertionSort _ _).nodup_iff).mpr (nodup_uniqueFirst _)

theorem mem_lexCats {l : List Row} {c : String} :
    c ∈ lexCats l ↔ c ∈ l.filterMap Row.category := by
  rw [lexCats, mem_insertionSort, mem_uniqueFirst]

theorem mem_categoryOrder {l : List Row} {c : String} :
    c ∈ categoryOrder l ↔ c ∈ l.filterMap Row.category := by
  rw [categoryOrder, sortValsDesc, mem_reverse, mem_insertionSort, mem_lexCats]

theorem categoryOrder_nodup (l : List Row) : (categoryOrder l).Nodup := by
  rw [categoryOrder, sortValsDesc]
  exact nodup_reverse.mpr (((perm_insertionSort _ _).nodup_iff).mpr (lexCats_nodup l))

theorem lexCats_congr {l m : List Row}
    (h : l.filterMap Row.category ~ m.filterMap Row.category) : lexCats l = lexCats m := by
  have huf : uniqueFirst (l.filterMap Row.category) ~ uniqueFirst (m.filterMap Row.category) :=
    (perm_ext_iff_of_nodup (nodup_uniqueFirst _) (nodup_uniqueFirst _)).mpr
      (fun a => by rw [mem_uniqueFirst, mem_uniqueFirst, h.mem_iff])
  refine eq_of_perm_of_sorted ?_ (sorted_insertionSort _ _) (sorted_insertionSort _ _)
  exact (perm_insertionSort _ _).trans (huf.trans (perm_insertionSort _ _).symm)

theorem catTotal_perm {l m : List Row} (h : l ~ m) (c : String) :
    catTotal l c = catTotal m c :=
  ((h.filter _).map itemWeight).sum_eq

theorem categoryOrder_congr {l m : List Row}
    (hperm : l.filterMap Row.category ~ m.filterMap Row.category)
    (htot : ∀ c, catTotal l c = catTotal m c) : categoryOrder l = categoryOrder m := by
  rw [categoryOrder, categoryOrder, lexCats_congr hperm, funext htot]

/-! ### The descending category sort refines to the reverse-lexicographic tie order -/

theorem orderedInsert_refine (tot : String → Int) (a : String) :
    ∀ M : List String,
      M.Pairwise (fun x y => tot x < tot y ∨ (tot x = tot y ∧ pyStrLE x y = true)) →
      (∀ y ∈ M, tot a = tot y → pyStrLE a y = true) →
      (orderedInsert (fun x y => tot x ≤ tot y) a M).Pairwise
        (fun x y => tot x < tot y ∨ (tot x = tot y ∧ pyStrLE x y = true))
  | [], _, _ => pairwise_singleton _ _
  | b :: M2, hpw, hstr => by
    by_cases hab : tot a ≤ tot b
    · rw [orderedInsert, if_pos hab]
      refine pairwise_cons.mpr ⟨?_, hpw⟩
      intro y hy
      have hay : tot a ≤ tot y := by
        rcases mem_cons.mp hy with h | h
        · exact h ▸ hab
        · have hby : tot b ≤ tot y := by
            rcases (pairwise_cons.mp hpw).1 y h with h2 | h2
            · exact le_of_lt h2
            · exact le_of_eq h2.1
          exact le_trans hab hby
      rcases lt_or_eq_of_le hay with h2 | h2
      · exact Or.inl h2
      · exact Or.inr ⟨h2, hstr y hy h2⟩
    · rw [orderedInsert, if_neg hab]
      have hba : tot b < tot a := not_le.mp hab
      refine pairwise_cons.mpr ⟨?_, ?_⟩
      · intro y hy
        rcases (mem_orderedInsert _).mp hy with h | h
        · exact Or.inl (h ▸ hba)
        · exact (pairwise_cons.mp hpw).1 y h
      · exact orderedInsert_refine tot a M2 (pairwise_cons.mp hpw).2
          (fun y hy he => hstr y (mem_cons_of_mem b hy) he)

theorem insertionSort_refine (tot : String → Int) :
    ∀ L : List String, L.Pairwise (fun a b => pyStrLE a b = true) →
      (insertionSort (fun x y => tot x ≤ tot y) L).Pairwise
        (fun x y => tot x < tot y ∨ (tot x = tot y ∧ pyStrLE x y = true))
  | [], _ => Pairwise.nil
  | a :: L2, hpw => by
    simp only [insertionSort]
    refine orderedInsert_refine tot a _
      (insertionSort_refine tot L2 (pairwise_cons.mp hpw).2) ?_
    intro y hy _
    exact (pairwise_cons.mp hpw).1 y ((mem_insertionSort _).mp hy)

theorem categoryOrder_pairwise (l : List Row) :
    (categoryOrder l).Pairwise (fun a b =>
      catTotal l b < catTotal l a ∨ (catTotal l b = catTotal l a ∧ pyStrLE b a = true)) := by
  rw [categoryOrder, sortValsDesc, pairwise_reverse]
  exact insertionSort_refine (catTotal l) (lexCats l) (lexCats_pairwise l)

/-! ### The untouched save path persists exactly the sorted non-null-category rows -/

theorem filterMap_category_filter (l : List Row) :
    (l.filter (fun r => (Row.category r).isSome)).filterMap Row.category =
      l.filterMap Row.category := by
  induction l with
  | nil => rfl
  | cons r t ih => cases hc : r.category <;> simp [filter_cons, hc, ih]

theorem map_category_of_isSome {l : List Row} (h : ∀ r ∈ l, (Row.category r).isSome) :
    l.map Row.category = (l.filterMap Row.category).map some := by
  induction l with
  | nil => rfl
  | cons r t ih =>
    rcases Option.isSome_iff_exists.mp (h r (mem_cons_self r t)) with ⟨c, hc⟩
    simp only [map_cons, filterMap_cons, hc]
    exact congrArg (some c :: ·) (ih (fun x hx => h x (mem_cons_of_mem r hx)))

theorem filter_some_filter_isSome (S : List Row) (c : String) :
    (S.filter (fun r => (Row.category r).isSome)).filter (fun r => r.category == some c) =
      S.filter (fun r => r.category == some c) := by
  rw [filter_filter]
  refine filter_congr ?_
  intro x _
  cases hc : x.category <;> simp [hc]

theorem beq_inst_eq (x y : Option String) :
    (@BEq.beq (Option String) instBEqOfDecidableEq x y) = (x == y) := by
  rw [Bool.eq_iff_iff]
  simp [beq_iff_eq]

theorem editorFragments_sorted (l : List Row) :
    (editorFragments (sortByWeightRows l)).flatten =
      (sortByWeightRows l).filter (fun r => (Row.category r).isSome) := by
  have hmemS : ∀ c : String, c ∈ (sortByWeightRows l).filterMap Row.category →
      c ∈ categoryOrder l := by
    intro c hc
    rw [mem_categoryOrder]
    exact (((sortRows_perm (categoryOrder l) l).filterMap Row.category).mem_iff).mp hc
  have hLpmem : ∀ r ∈ (sortByWeightRows l).filter (fun r => (Row.category r).isSome),
      (Row.category r).isSome := by
    intro r hr
    simpa using of_mem_filter hr
  have hpwLp : ((sortByWeightRows l).filter (fun r => (Row.category r).isSome)).Pairwise
      (fun a b => catRank (categoryOrder l) (Row.category a) ≤
        catRank (categoryOrder l) (Row.category b)) :=
    ((sortRows_pairwise (categoryOrder l) l).sublist
      (filter_sublist (sortByWeightRows l))).imp rowLE_rank_le
  have hinjLp : ∀ a ∈ (sortByWeightRows l).filter (fun r => (Row.category r).isSome),
      ∀ b ∈ (sortByWeightRows l).filter (fun r => (Row.category r).isSome),
      catRank (categoryOrder l) (Row.category a) = catRank (categoryOrder l) (Row.category b) →
      Row.category a = Row.category b := by
    intro a ha b hb he
    rcases Option.isSome_iff_exists.mp (hLpmem a ha) with ⟨ca, hca⟩
    rcases Option.isSome_iff_exists.mp (hLpmem b hb) with ⟨cb, hcb⟩
    rw [hca, hcb] at he ⊢
    have hma : ca ∈ categoryOrder l := by
      refine hmemS ca (mem_filterMap.mpr ⟨a, mem_of_mem_filter ha, hca⟩)
    have hmb : cb ∈ categoryOrder l := by
      refine hmemS cb (mem_filterMap.mpr ⟨b, mem_of_mem_filter hb, hcb⟩)
    simp only [catRank] at he
    exact congrArg some ((indexOf_inj hma hmb).mp he)
  have hgather := gather_sorted Row.category (catRank (categoryOrder l))
    ((sortByWeightRows l).filter (fun r => (Row.category r).isSome)) hpwLp hinjLp
  rw [map_category_of_isSome hLpmem,
    uniqueFirst_map_inj some (fun x y h => Option.some.inj h), map_map] at hgather
  rw [editorFragments, ← filterMap_category_filter (sortByWeightRows l)]
  rw [map_congr_left (fun c _ => (filter_some_filter_isSome (sortByWeightRows l) c).symm)]
  simp only [Function.comp_def, beq_inst_eq] at hgather
  exact hgather

theorem savePipeline_eq (l : List Row) :
    savePipeline l = (sortByWeightRows l).filter (fun r => (Row.category r).isSome) := by
  rw [savePipeline, editorFragments_sorted]
  have hperm : ((sortByWeightRows l).filter
      (fun r => (Row.category r).isSome)).filterMap Row.category ~
        l.filterMap Row.category := by
    rw [filterMap_category_filter]
    exact (sortRows_perm (categoryOrder l) l).filterMap Row.category
  have htot : ∀ c, catTotal ((sortByWeightRows l).filter
      (fun r => (Row.category r).isSome)) c = catTotal l c := by
    intro c
    rw [catTotal, filter_some_filter_isSome]
    exact catTotal_perm (sortRows_perm (categoryOrder l) l) c
  have hco : categoryOrder ((sortByWeightRows l).filter
      (fun r => (Row.category r).isSome)) = categoryOrder l :=
    categoryOrder_congr hperm htot
  rw [sortByWeightRows, hco]
  exact sortRows_of_pairwise
    ((sortRows_pairwise (categoryOrder l) l).sublist (filter_sublist (sortByWeightRows l)))

/-! ### Summary arithmetic -/

theorem total_weight_cons (r : Row) (l : List Row) :
    total_weight (r :: l) = itemWeight r + total_weight l := by
  simp [total_weight]

theorem wearable_weight_cons (r : Row) (l : List Row) :
    wearable_weight (r :: l) =
      (if r.wearable then itemWeight r else 0) + wearable_weight l := by
  rw [wearable_weight, filter_cons]
  cases h : r.wearable <;> simp [wearable_weight, h]

theorem consumable_weight_cons (r : Row) (l : List Row) :
    consumable_weight (r :: l) =
      (if r.consumable then itemWeight r else 0) + consumable_weight l := by
  rw [consumable_weight, filter_cons]
  cases h : r.consumable <;> simp [consumable_weight, h]

/-- C2: the summary satisfies `base_total = total − wearable_total − consumable_total`
with each restricted total summing `item_total_weight` over the rows whose flag is
set, and the luxury flag has no effect on the base weight: relabelling luxury
arbitrarily leaves `base_weight` unchanged, and the base weight keeps the weight
of every row that is neither wearable nor consumable (luxury or not), double-
subtracting only rows that are both wearable and consumable. -/
theorem base_weight_policy (l : List Row) (f : Row → Bool) :
    base_weight l = total_weight l - wearable_weight l - consumable_weight l
  ∧ base_weight (l.map (fun r => { r with luxury := f r })) = base_weight l
  ∧ base_weight l =
      ((l.filter (fun r => !r.wearable && !r.consumable)).map itemWeight).sum -
        ((l.filter (fun r => r.wearable && r.consumable)).map itemWeight).sum := by
  refine ⟨rfl, ?_, ?_⟩
  · induction l with
    | nil => rfl
    | cons r t ih =>
      unfold base_weight at *
      rw [map_cons, total_weight_cons, total_weight_cons, wearable_weight_cons,
        wearable_weight_cons, consumable_weight_cons, consumable_weight_cons]
      cases r
      rcases hw : f _ <;>
        simp only [itemWeight] <;>
        omega
  · induction l with
    | nil => rfl
    | cons r t ih =>
      unfold base_weight at *
      rw [total_weight_cons, wearable_weight_cons, consumable_weight_cons,
        filter_cons, filter_cons]
      rcases h1 : r.wearable <;> rcases h2 : r.consumable <;> simp [h1, h2] <;> omega

/-- C5 counterexample: `sort_by_weight` does not leave its argument unchanged;
already on an empty frame the caller's dataframe gains the `item_weight`
column (and a Categorical category dtype). -/
theorem sort_by_weight_not_pure :
    (sort_by_weight ⟨[], false, false⟩).1 ≠ ⟨[], false, false⟩ := by decide

/-- C5 (amended): `sort_by_weight` mutates its argument in place — the caller's
frame gains the `item_weight` helper column and its category column becomes an
ordered Categorical — but its row content is untouched, and the returned frame
is a pure function of the input rows (a permutation of them, item_weight
dropped). -/
theorem sort_by_weight_effect (df : PandasDF) :
    (sort_by_weight df).1 = { df with hasItemWeightCol := true, categoryCategorical := true }
  ∧ (sort_by_weight df).1.rows = df.rows
  ∧ (sort_by_weight df).2 =
      ⟨sortByWeightRows df.rows, false, true⟩
  ∧ (sort_by_weight df).2.rows ~ df.rows :=
  ⟨rfl, rfl, rfl, sortRows_perm _ _⟩

/-- C8: the confirmed category delete removes exactly the rows whose category
equals the deleted name: the result is a subsequence of the input, no row of
the deleted category remains, every other row keeps its multiplicity (and, by
the subsequence property, its order), and every other category keeps its total
weight. -/
theorem delete_category_exact (cat : String) (l : List Row) :
    delete_category cat l <+ l
  ∧ (∀ r : Row, r.category = some cat → r ∉ delete_category cat l)
  ∧ (∀ r : Row, r.category ≠ some cat → count r (delete_category cat l) = count r l)
  ∧ (∀ c, c ≠ cat → catTotal (delete_category cat l) c = catTotal l c) := by
  refine ⟨filter_sublist l, ?_, ?_, ?_⟩
  · intro r hr hmem
    have h := of_mem_filter hmem
    simp [hr] at h
  · intro r hr
    refine count_filter ?_
    simp [hr]
  · intro c hc
    rw [catTotal, catTotal, delete_category, filter_filter]
    refine congrArg _ (congrArg _ ?_)
    refine filter_congr ?_
    intro x _
    cases hx : x.category with
    | none => simp [hx]
    | some d =>
      by_cases hdc : d = c
      · subst hdc
        simp [hx, hc]
      · simp [hx, hdc]

/-- Witness for C8 at a concrete list: deleting `food` keeps the `shelter`
rows as a subsequence and leaves the `shelter` total unchanged. -/
theorem delete_category_exact_witness :
    delete_category "food"
        [⟨"tent", "", some "shelter", 1200, 1, false, false, false⟩,
         ⟨"bar", "", some "food", 50, 3, false, true, false⟩] <+
      [⟨"tent", "", some "shelter", 1200, 1, false, false, false⟩,
       ⟨"bar", "", some "food", 50, 3, false, true, false⟩]
  ∧ ("shelter" : String) ≠ "food"
  ∧ catTotal (delete_category "food"
        [⟨"tent", "", some "shelter", 1200, 1, false, false, false⟩,
         ⟨"bar", "", some "food", 50, 3, false, true, false⟩]) "shelter" =
      catTotal
        [⟨"tent", "", some "shelter", 1200, 1, false, false, false⟩,
         ⟨"bar", "", some "food", 50, 3, false, true, false⟩] "shelter" :=
  ⟨(delete_category_exact "food" _).1, by decide,
    (delete_category_exact "food" _).2.2.2 "shelter" (by decide)⟩

/-! ### Access control and file creation -/

/-- C3 (code bug in the source): the Add Category callback and the confirmed
category delete write the CSV with no authentication check, so an
unauthenticated session does change the persisted file; only the save handler
and the notes write are gated on `st.session_state.authenticated`.  The first
two conjuncts evaluate the two ungated writes at a concrete unauthenticated
state; the last two prove that save and notes really are no-ops when
unauthenticated. -/
theorem unauthenticated_mutations :
    (on_add_category false "food" []
        "gear.csv" (fun k => if k = "gear.csv" then some [] else none)) "gear.csv" =
      some [newCategoryRow "food"]
  ∧ (on_delete_category false "food" [newCategoryRow "food"] "gear.csv"
        (fun k => if k = "gear.csv" then some [newCategoryRow "food"] else none)) "gear.csv" =
      some []
  ∧ (∀ (df : List Row) (cfg : String) (fs : String → Option (List Row)),
      on_save false true df cfg fs = fs)
  ∧ (∀ (notes existing nf : String) (txt : String → Option String),
      save_notes false notes existing nf txt = txt) := by
  refine ⟨by decide, by decide, ?_, ?_⟩
  · intro df cfg fs
    rw [on_save]
    split
    · rfl
    · rfl
  · intro notes existing nf txt
    rw [save_notes, if_neg]
    rintro ⟨-, h⟩
    exact Bool.false_ne_true h

/-- C9: creating a configuration from a non-blank typed name appends `.csv`
when the stripped name does not already end in it, stores a gear list with the
fixed header row and zero data rows under that file name — silently
overwriting whatever was there, since no existence check is made — and leaves
every other file untouched. -/
theorem on_create_new_config_spec (input : String) (fs : String → Option CSVFile)
    (h : pyStrip input ≠ "") :
    on_create_new_config input fs
        (if endsWithCsv (pyStrip input) then pyStrip input else pyStrip input ++ ".csv") =
      some create_empty_df
  ∧ create_empty_df.rows = []
  ∧ create_empty_df.header = gearColumns
  ∧ (∀ k, k ≠ (if endsWithCsv (pyStrip input) then pyStrip input
        else pyStrip input ++ ".csv") →
      on_create_new_config input fs k = fs k)
  ∧ (endsWithCsv (pyStrip input) = false →
      (if endsWithCsv (pyStrip input) then pyStrip input else pyStrip input ++ ".csv") =
        pyStrip input ++ ".csv") := by
  refine ⟨?_, rfl, rfl, ?_, ?_⟩
  · rw [on_create_new_config]
    simp [if_neg h, setFile]
  · intro k hk
    rw [on_create_new_config]
    simp [if_neg h, setFile, hk]
  · intro he
    rw [he]
    rfl

/-- Witness for C9: creating `"trip"` writes a header-only `trip.csv`, even
though a non-empty `trip.csv` already existed in the store. -/
theorem on_create_new_config_witness :
    pyStrip "trip" ≠ ""
  ∧ (fun k => if k = "trip.csv"
        then some (⟨gearColumns, [["old", "", "c", "1", "1", "False", "False", "False"]]⟩ : CSVFile)
        else none) "trip.csv" ≠ some create_empty_df
  ∧ on_create_new_config "trip"
      (fun k => if k = "trip.csv"
        then some (⟨gearColumns, [["old", "", "c", "1", "1", "False", "False", "False"]]⟩ : CSVFile)
        else none) "trip.csv" = some create_empty_df := by
  refine ⟨by decide, by decide, ?_⟩
  have h := (on_create_new_config_spec "trip"
    (fun k => if k = "trip.csv"
      then some (⟨gearColumns, [["old", "", "c", "1", "1", "False", "False", "False"]]⟩ : CSVFile)
      else none) (by decide)).1
  have hk : (if endsWithCsv (pyStrip "trip") then pyStrip "trip"
      else pyStrip "trip" ++ ".csv") = "trip.csv" := by decide
  rwa [hk] at h

/-! ### Load failure characterization -/

theorem digits_numeric_chars {ds : List Char} (hne : ds ≠ [])
    (hall : ds.all Char.isDigit = true) :
    (ds.all (fun d => d.isDigit || d == '.') && decide (List.count '.' ds ≤ 1) &&
      ds.any Char.isDigit) = true := by
  rw [List.all_eq_true] at hall
  simp only [Bool.and_eq_true, List.all_eq_true, List.any_eq_true, decide_eq_true_eq]
  refine ⟨⟨?_, ?_⟩, ?_⟩
  · intro d hd
    simp [hall d hd]
  · have hz : List.count '.' ds = 0 := by
      rw [List.count_eq_zero]
      intro hdot
      have := hall _ hdot
      simp at this
    omega
  · cases ds with
    | nil => exact absurd rfl hne
    | cons d ds2 => exact ⟨d, mem_cons_self d ds2, hall d (mem_cons_self d ds2)⟩

theorem tokenIsNumeric_of_tokenIsInt {s : String} (h : tokenIsInt s = true) :
    tokenIsNumeric s = true := by
  cases hs : s.data with
  | nil => simp [tokenIsInt, hs] at h
  | cons c cs =>
    simp only [tokenIsInt, hs] at h
    simp only [tokenIsNumeric, hs]
    by_cases hc : c = '-'
    · simp only [if_pos hc] at h ⊢
      rw [Bool.and_eq_true, Bool.not_eq_eq_eq_not, Bool.not_true] at h
      refine digits_numeric_chars (fun hnil => ?_) h.2
      rw [hnil] at h
      exact absurd h.1 (by simp)
    · simp only [if_neg hc] at h ⊢
      exact digits_numeric_chars (cons_ne_nil c cs) h

theorem all_numeric_of_all_int {q : List String} (h : q.all tokenIsInt = true) :
    q.all tokenIsNumeric = true := by
  rw [List.all_eq_true] at h ⊢
  exact fun s hs => tokenIsNumeric_of_tokenIsInt (h s hs)

theorem mulCols_error_iff (q w : List String) :
    (∃ e, mulCols (inferCol q) (inferCol w) = Except.error e) ↔
      ((q.all tokenIsNumeric = false ∧ w.all tokenIsInt = false) ∨
        (q.all tokenIsInt = false ∧ w.all tokenIsNumeric = false)) := by
  rw [inferCol, inferCol]
  by_cases hqi : q.all tokenIsInt <;> by_cases hwi : w.all tokenIsInt
  · simp [hqi, hwi, mulCols, all_numeric_of_all_int hqi]
  · by_cases hwn : w.all tokenIsNumeric <;>
      simp [hqi, hwi, hwn, mulCols, all_numeric_of_all_int hqi]
  · by_cases hqn : q.all tokenIsNumeric <;>
      simp [hqi, hwi, hqn, mulCols, all_numeric_of_all_int hwi]
  · by_cases hqn : q.all tokenIsNumeric <;> by_cases hwn : w.all tokenIsNumeric <;>
      simp [hqi, hwi, hqn, hwn, mulCols]

/-- C7 (amended): the load-and-sort step of `main` fails exactly when the file
is absent, one of the columns it touches ('#', '⚖️', 'category') is missing,
or a non-numeric (string-dtype) quantity or weight column meets a companion
column that is not all-integer: string times int is Python repetition and
loads without error, while string times float — or times string — raises
TypeError.  All-numeric columns (int64 or float64) always multiply without
error, so all-float weight/quantity files load fine. -/
theorem load_sorted_failure_characterization :
    load_sorted none = Except.error LoadErr.fileNotFound
  ∧ ∀ f : CSVFile,
      ((∃ e, load_sorted (some f) = Except.error e) ↔
        (getCol f "#" = none ∨ getCol f "⚖️" = none ∨ getCol f "category" = none ∨
          (∃ q w, getCol f "#" = some q ∧ getCol f "⚖️" = some w ∧
            ((q.all tokenIsNumeric = false ∧ w.all tokenIsInt = false) ∨
              (q.all tokenIsInt = false ∧ w.all tokenIsNumeric = false))))) := by
  refine ⟨rfl, ?_⟩
  intro f
  constructor
  · rintro ⟨e, he⟩
    cases hq : getCol f "#" with
    | none => exact Or.inl rfl
    | some q =>
      cases hw : getCol f "⚖️" with
      | none => exact Or.inr (Or.inl rfl)
      | some w =>
        simp only [load_sorted, hq, hw] at he
        cases hm : mulCols (inferCol q) (inferCol w) with
        | error e2 =>
          refine Or.inr (Or.inr (Or.inr ⟨q, w, rfl, rfl, ?_⟩))
          exact (mulCols_error_iff q w).mp ⟨e2, hm⟩
        | ok iw =>
          rw [hm] at he
          cases hcat : getCol f "category" with
          | none => exact Or.inr (Or.inr (Or.inl rfl))
          | some cats =>
            rw [hcat] at he
            exact absurd he (by simp)
  · intro h
    rcases h with h | h | h | ⟨q, w, hq, hw, hcond⟩
    · exact ⟨LoadErr.keyError, by simp only [load_sorted, h]⟩
    · cases hq : getCol f "#" with
      | none => exact ⟨LoadErr.keyError, by simp only [load_sorted, hq]⟩
      | some q => exact ⟨LoadErr.keyError, by simp only [load_sorted, hq, h]⟩
    · cases hq : getCol f "#" with
      | none => exact ⟨LoadErr.keyError, by simp only [load_sorted, hq]⟩
      | some q =>
        cases hw : getCol f "⚖️" with
        | none => exact ⟨LoadErr.keyError, by simp only [load_sorted, hq, hw]⟩
        | some w =>
          cases hm : mulCols (inferCol q) (inferCol w) with
          | error e2 => exact ⟨e2, by simp only [load_sorted, hq, hw, hm]⟩
          | ok iw => exact ⟨LoadErr.keyError, by simp only [load_sorted, hq, hw, hm, h]⟩
    · rcases (mulCols_error_iff q w).mpr hcond with ⟨e2, hm⟩
      exact ⟨e2, by simp only [load_sorted, hq, hw, hm]⟩

/-- Witness for C7 at concrete inputs: a header without the '#' column fails
to load; a complete all-integer one-row file loads; a file with float weight
1.5 and float quantity 2.5 loads as float64 columns with item weight 3.75;
and a non-numeric quantity against a float weight raises. -/
theorem load_sorted_failure_witness :
    (∃ e, load_sorted (some ⟨["name"], []⟩) = Except.error e)
  ∧ load_sorted (some ⟨gearColumns, [["t", "", "c", "3", "2", "False", "False", "False"]]⟩) =
      Except.ok ⟨ColData.nums [2], ColData.nums [3], ["c"], ColData.nums [6]⟩
  ∧ load_sorted
      (some ⟨gearColumns, [["t", "", "c", "1.5", "2.5", "False", "False", "False"]]⟩) =
      Except.ok ⟨ColData.floats [⟨25, 1⟩], ColData.floats [⟨15, 1⟩], ["c"],
        ColData.floats [⟨375, 2⟩]⟩
  ∧ (∃ e, load_sorted
      (some ⟨gearColumns, [["t", "", "c", "1.5", "x", "False", "False", "False"]]⟩) =
        Except.error e) :=
  ⟨(load_sorted_failure_characterization.2 ⟨["name"], []⟩).mpr (Or.inl (by decide)),
    rfl, rfl,
    (load_sorted_failure_characterization.2 _).mpr
      (Or.inr (Or.inr (Or.inr ⟨["x"], ["1.5"], rfl, rfl, Or.inl (by decide)⟩)))⟩

/-- C7 counterexample: a malformed file — its '#' quantity column holds the
non-numeric token "x" — still loads without error, because the weight column
is all-integer and Python string-times-int is repetition: the computed
item_weight column is the string "xxx". -/
theorem load_sorted_malformed_success :
    load_sorted (some ⟨gearColumns, [["t", "", "c", "3", "x", "False", "False", "False"]]⟩) =
      Except.ok ⟨ColData.strs ["x"], ColData.nums [3], ["c"], ColData.strs ["xxx"]⟩
  ∧ tokenIsInt "x" = false := ⟨rfl, rfl⟩

/-! ### The sort rule, the save round-trip and the missing-category drop -/

/-- C1 counterexample: two categories with equal total weight, encountered in
the order a then b, come out of `sort_by_weight` in the order b then a —
`groupby` sorts the keys lexicographically and the descending `sort_values`
reverses the ascending order, so the tie is broken reverse-lexicographically,
not by encounter order as the spec claims. -/
theorem sort_by_weight_tie_counterexample :
    sortByWeightRows
        [⟨"a1", "", some "a", 1, 1, false, false, false⟩,
         ⟨"b1", "", some "b", 1, 1, false, false, false⟩] ≠
      sortByWeightClaimed
        [⟨"a1", "", some "a", 1, 1, false, false, false⟩,
         ⟨"b1", "", some "b", 1, 1, false, false, false⟩] := by decide

/-- C1 (amended): `sort_by_weight` permutes the rows; the output is sorted by
(category rank ascending, item weight descending) where the category ranking
lists each category exactly once, ordered by total weight descending with ties
broken by reverse-lexicographic (descending code-point) category name — not by
encounter order; and the sort is stable: rows with the same category rank and
the same item weight keep their original relative order (their per-key
subsequence is untouched). -/
theorem sort_by_weight_order_spec (l : List Row) :
    sortByWeightRows l ~ l
  ∧ (sortByWeightRows l).Pairwise (rowLE (categoryOrder l))
  ∧ (categoryOrder l).Nodup
  ∧ (∀ c, c ∈ categoryOrder l ↔ some c ∈ l.map Row.category)
  ∧ (categoryOrder l).Pairwise (fun a b =>
      catTotal l b < catTotal l a ∨ (catTotal l b = catTotal l a ∧ pyStrLE b a = true))
  ∧ (∀ k, (sortByWeightRows l).filter (fun r => rowKey (categoryOrder l) r == k) =
      l.filter (fun r => rowKey (categoryOrder l) r == k)) := by
  refine ⟨sortRows_perm _ _, sortRows_pairwise _ _, categoryOrder_nodup l, ?_,
    categoryOrder_pairwise l, fun k => sortRows_filter_key _ _ k⟩
  intro c
  rw [mem_categoryOrder]
  simp [mem_filterMap, mem_map]

/-- Witness for C1 at a concrete list (evaluating the amended order rule). -/
theorem sort_by_weight_order_spec_witness :
    sortByWeightRows
        [⟨"tent", "", some "shelter", 1200, 1, false, false, false⟩,
         ⟨"bar", "", some "food", 50, 3, false, true, false⟩] ~
      [⟨"tent", "", some "shelter", 1200, 1, false, false, false⟩,
       ⟨"bar", "", some "food", 50, 3, false, true, false⟩] :=
  (sort_by_weight_order_spec _).1

/-- C4: for a valid gear list (every row carries a category), loading, showing
untouched editors, concatenating the fragments and re-sorting for the save
yields exactly the sorted input: `save(load(X)) = sort(X)` at the level of row
content (column order, the only byte-level difference, is abstracted away by
the row representation). -/
theorem save_load_roundtrip (l : List Row) (h : ∀ r ∈ l, (Row.category r).isSome) :
    savePipeline l = sortByWeightRows l := by
  rw [savePipeline_eq]
  refine filter_eq_self.mpr ?_
  intro r hr
  have hrl : r ∈ l := ((sortRows_perm _ l).mem_iff).mp hr
  simpa using h r hrl

/-- Witness for C4 on the spec's own example list. -/
theorem save_load_roundtrip_witness :
    (∀ r ∈ ([⟨"tent", "", some "shelter", 1200, 1, false, false, false⟩,
             ⟨"bar", "", some "food", 50, 3, false, true, false⟩] : List Row),
        (Row.category r).isSome)
  ∧ savePipeline
        [⟨"tent", "", some "shelter", 1200, 1, false, false, false⟩,
         ⟨"bar", "", some "food", 50, 3, false, true, false⟩] =
      sortByWeightRows
        [⟨"tent", "", some "shelter", 1200, 1, false, false, false⟩,
         ⟨"bar", "", some "food", 50, 3, false, true, false⟩] :=
  ⟨by decide, save_load_roundtrip _ (by decide)⟩

/-- C6: for a gear list in which every row has a category, the per-category
total is the sum of `quantity * weight` over exactly the rows of that
category, and the per-category totals over the distinct categories sum to the
list's total weight. -/
theorem category_totals_partition (l : List Row) (h : ∀ r ∈ l, (Row.category r).isSome) :
    (∀ c, catTotal l c = ((l.filter (fun r => r.category == some c)).map itemWeight).sum)
  ∧ ((uniqueFirst (l.filterMap Row.category)).map (catTotal l)).sum = total_weight l := by
  refine ⟨fun c => rfl, ?_⟩
  have hperm := gather_perm Row.category l
  rw [map_category_of_isSome h,
    uniqueFirst_map_inj some (fun x y hxy => Option.some.inj hxy), map_map] at hperm
  simp only [Function.comp_def, beq_inst_eq] at hperm
  have hsum : ((uniqueFirst (l.filterMap Row.category)).map (catTotal l)).sum =
      ((((uniqueFirst (l.filterMap Row.category)).map
          (fun c => l.filter (fun r => r.category == some c))).flatten).map itemWeight).sum := by
    rw [map_flatten, sum_flatten, map_map, map_map]
    simp only [Function.comp_def]
    rfl
  rw [hsum, total_weight]
  exact (hperm.map itemWeight).sum_eq

/-- Witness for C6 on the spec's example: shelter 1200 + food 150 = total 1350. -/
theorem category_totals_partition_witness :
    (∀ r ∈ ([⟨"tent", "", some "shelter", 1200, 1, false, false, false⟩,
             ⟨"bar", "", some "food", 50, 3, false, true, false⟩] : List Row),
        (Row.category r).isSome)
  ∧ ((uniqueFirst (([⟨"tent", "", some "shelter", 1200, 1, false, false, false⟩,
        ⟨"bar", "", some "food", 50, 3, false, true, false⟩] : List Row).filterMap
          Row.category)).map
      (catTotal [⟨"tent", "", some "shelter", 1200, 1, false, false, false⟩,
                 ⟨"bar", "", some "food", 50, 3, false, true, false⟩])).sum =
      total_weight [⟨"tent", "", some "shelter", 1200, 1, false, false, false⟩,
                    ⟨"bar", "", some "food", 50, 3, false, true, false⟩] :=
  ⟨by decide, (category_totals_partition _ (by decide)).2⟩

/-- C10 counterexample: a gear list whose only row has a missing category is
not rewritten by an authenticated save at all — no editor fragments exist, so
the `if edited_dfs:` guard skips the write and the missing-category row
persists in the CSV instead of being removed. -/
theorem save_missing_only_counterexample :
    (on_save true true (sortByWeightRows [⟨"ghost", "", none, 5, 1, false, false, false⟩])
        "g.csv"
        (fun k => if k = "g.csv"
          then some [⟨"ghost", "", none, 5, 1, false, false, false⟩] else none)) "g.csv" =
      some [⟨"ghost", "", none, 5, 1, false, false, false⟩]
  ∧ (⟨"ghost", "", none, 5, 1, false, false, false⟩ : Row).category = none := by
  refine ⟨by decide, rfl⟩

/-- C10 (amended): when at least one row has a category, an authenticated save
overwrites the file with exactly the non-missing-category rows of the sorted
frame (missing-category rows are silently dropped, because the write is
rebuilt from the per-category editor fragments); but when every row lacks a
category there are no fragments and the save writes nothing at all. -/
theorem save_drops_missing_categories (l : List Row) (cfg : String)
    (fs : String → Option (List Row)) :
    ((∃ r ∈ l, (Row.category r).isSome) →
      on_save true true (sortByWeightRows l) cfg fs =
        setFile cfg ((sortByWeightRows l).filter (fun r => (Row.category r).isSome)) fs)
  ∧ ((∀ r ∈ l, Row.category r = none) →
      on_save true true (sortByWeightRows l) cfg fs = fs) := by
  constructor
  · rintro ⟨r, hr, hsome⟩
    rcases Option.isSome_iff_exists.mp hsome with ⟨c, hc⟩
    have hrS : r ∈ sortByWeightRows l := ((sortRows_perm _ l).mem_iff).mpr hr
    have hcmem : c ∈ uniqueFirst ((sortByWeightRows l).filterMap Row.category) :=
      mem_uniqueFirst.mpr (mem_filterMap.mpr ⟨r, hrS, hc⟩)
    have hne : editorFragments (sortByWeightRows l) ≠ [] := by
      rw [editorFragments]
      intro hnil
      rw [map_eq_nil_iff] at hnil
      rw [hnil] at hcmem
      exact not_mem_nil c hcmem
    have hsp : sortByWeightRows (editorFragments (sortByWeightRows l)).flatten =
        (sortByWeightRows l).filter (fun r => (Row.category r).isSome) := savePipeline_eq l
    simp only [on_save]
    rw [hsp]
    simp [hne]
  · intro hall
    have hnil : (sortByWeightRows l).filterMap Row.category = [] := by
      rw [filterMap_eq_nil_iff]
      intro r hr
      exact hall r (((sortRows_perm _ l).mem_iff).mp hr)
    have hfr : editorFragments (sortByWeightRows l) = [] := by
      rw [editorFragments, hnil]
      rfl
    rw [on_save]
    simp [hfr]

/-- Witness for C10: a list with one real and one missing category; the save
writes the filtered (missing row dropped) sorted content, and on an
all-missing list the save does nothing. -/
theorem save_drops_missing_categories_witness :
    (∃ r ∈ ([⟨"tent", "", some "shelter", 1200, 1, false, false, false⟩,
             ⟨"ghost", "", none, 5, 1, false, false, false⟩] : List Row),
        (Row.category r).isSome)
  ∧ on_save true true
        (sortByWeightRows [⟨"tent", "", some "shelter", 1200, 1, false, false, false⟩,
                           ⟨"ghost", "", none, 5, 1, false, false, false⟩])
        "g.csv" (fun _ => none) =
      setFile "g.csv"
        ((sortByWeightRows [⟨"tent", "", some "shelter", 1200, 1, false, false, false⟩,
                            ⟨"ghost", "", none, 5, 1, false, false, false⟩]).filter
          (fun r => (Row.category r).isSome))
        (fun _ => none) :=
  ⟨by decide, (save_drops_missing_categories _ "g.csv" (fun _ => none)).1 (by decide)⟩

/-- Witness for C2 on the spec's example list: base weight 1200 (the
consumable 150 subtracted, total 1350). -/
theorem base_weight_policy_witness :
    base_weight [⟨"tent", "", some "shelter", 1200, 1, false, false, false⟩,
                 ⟨"bar", "", some "food", 50, 3, false, true, false⟩] =
      total_weight [⟨"tent", "", some "shelter", 1200, 1, false, false, false⟩,
                    ⟨"bar", "", some "food", 50, 3, false, true, false⟩] -
        wearable_weight [⟨"tent", "", some "shelter", 1200, 1, false, false, false⟩,
                         ⟨"bar", "", some "food", 50, 3, false, true, false⟩] -
        consumable_weight [⟨"tent", "", some "shelter", 1200, 1, false, false, false⟩,
                           ⟨"bar", "", some "food", 50, 3, false, true, false⟩]
  ∧ base_weight [⟨"tent", "", some "shelter", 1200, 1, false, false, false⟩,
                 ⟨"bar", "", some "food", 50, 3, false, true, false⟩] = 1200 :=
  ⟨(base_weight_policy _ (fun _ => true)).1, by decide⟩

/-- Witness for C5 at a concrete frame: the caller's rows survive the call
unchanged even though the frame itself was mutated. -/
theorem sort_by_weight_effect_witness :
    (sort_by_weight ⟨[⟨"tent", "", some "shelter", 1200, 1, false, false, false⟩],
        false, false⟩).1.rows =
      [⟨"tent", "", some "shelter", 1200, 1, false, false, false⟩] :=
  (sort_by_weight_effect _).2.1
